import Mathlib

/-!
Shallow embedding of the FAQ resolution engine of `api/line.js`
(LINE chatbot: FAQ lookup via embeddings + keyword fallback, else OpenAI).

Strings are modelled as `List Char` (JS strings, compared code-point-wise).
JS numbers appearing in similarity scores are modelled as exact rationals,
wrapped in `JsNum` where the source can produce `NaN` or infinities
(division by zero in `cosineSim`).  `Math.sqrt` is modelled as a parameter
`sqrtQ : ℚ → ℚ`; the only property of the real square root that any proof
below uses is that on nonnegative inputs it vanishes exactly at zero
(`SqrtSpec`).  The platform string functions `String.prototype.normalize("NFKC")`
and `toLowerCase` are modelled by executable fragments of the Unicode
algorithms (`nfkcFrag`, `toLowerFrag`) that are exact on every character
appearing in this development: ASCII, the kanji/kana used in the corpus and
keyword lists, the ideographic punctuation of the strip regex, U+0301
(combining acute) and U+00E1 (a-acute).  On those characters NFKC has no
compatibility decompositions, and its canonical-composition pass composes
exactly the adjacent pair U+0061 U+0301 ↦ U+00E1; `toLowerCase` shifts
ASCII A–Z and fixes the rest.
-/

namespace LineBot

/-- JS number results of the similarity computation: a rational value,
`NaN`, or a signed infinity (the latter two arise from division by zero). -/
inductive JsNum where
  | nan : JsNum
  | inf : JsNum
  | ninf : JsNum
  | num : ℚ → JsNum
deriving DecidableEq

instance {ε α : Type} [DecidableEq ε] [DecidableEq α] : DecidableEq (Except ε α) :=
  fun x y =>
    match x, y with
    | .ok a, .ok b =>
      if h : a = b then .isTrue (by rw [h]) else .isFalse (by simp [h])
    | .error a, .error b =>
      if h : a = b then .isTrue (by rw [h]) else .isFalse (by simp [h])
    | .ok _, .error _ => .isFalse (by simp)
    | .error _, .ok _ => .isFalse (by simp)

/-- JS division `n / d` on exact rationals: `0/0 = NaN`, `±x/0 = ±Infinity`. -/
def jsDiv (n d : ℚ) : JsNum :=
  if d = 0 then (if n = 0 then .nan else if 0 < n then .inf else .ninf)
  else .num (n / d)

/-- JS `>` on `JsNum`: any comparison with `NaN` is false. -/
def jsGt : JsNum → JsNum → Bool
  | .nan, _ => false
  | _, .nan => false
  | .inf, .inf => false
  | .inf, _ => true
  | _, .inf => false
  | .num _, .ninf => true
  | .ninf, _ => false
  | .num a, .num b => decide (b < a)

/-- JS `>=` on `JsNum`: any comparison with `NaN` is false. -/
def jsGe : JsNum → JsNum → Bool
  | .nan, _ => false
  | _, .nan => false
  | .inf, _ => true
  | _, .inf => false
  | .ninf, .ninf => true
  | .num _, .ninf => true
  | .ninf, .num _ => false
  | .num a, .num b => decide (b ≤ a)

/-- The property of `Math.sqrt` used below: on nonnegative inputs it is zero
exactly at zero. -/
def SqrtSpec (sqrtQ : ℚ → ℚ) : Prop :=
  ∀ x : ℚ, 0 ≤ x → (sqrtQ x = 0 ↔ x = 0)

/-- JS `hay.includes(needle)`: substring containment. -/
def jsIncludes (hay needle : List Char) : Bool :=
  decide (needle <:+: hay)

/- ===== Text normalization (`normalizeJa`, lines 249–256; `normalize`,
   lines 69–77) ===== -/

/-- U+0301 combining acute accent. -/
def acuteChar : Char := Char.ofNat 0x301

/-- U+00E1 latin small letter a with acute. -/
def aAcuteChar : Char := Char.ofNat 0xE1

/-- Fragment of `String.prototype.normalize("NFKC")`, exact on the characters
used in this development (see the header comment): no compatibility
decompositions apply, and the canonical-composition pass composes exactly
the adjacent, unblocked pair `'a'` U+0301 ↦ U+00E1. -/
def nfkcFrag : List Char → List Char
  | [] => []
  | [c] => [c]
  | c :: d :: rest =>
    if c = 'a' ∧ d = acuteChar then aAcuteChar :: nfkcFrag rest
    else c :: nfkcFrag (d :: rest)

/-- Fragment of `String.prototype.toLowerCase()`: shifts ASCII `A`–`Z`,
fixes every other character used in this development. -/
def toLowerFrag (c : Char) : Char :=
  if 65 ≤ c.toNat ∧ c.toNat ≤ 90 then Char.ofNat (c.toNat + 32) else c

/-- The character class of the punctuation-stripping regex
`[、。・!！?？~〜－—_＿|｜/／\\（）\(\)\[\]【】「」『』"'`.,:：;；]`
(the 0x60 code point is the ASCII grave accent). -/
def punctChars : List Char :=
  ['、', '。', '・', '!', '！', '?', '？', '~', '〜', '－', '—', '_', '＿',
   '|', '｜', '/', '／', '\\', '（', '）', '(', ')', '[', ']', '【', '】',
   '「', '」', '『', '』', '"', '\'', Char.ofNat 0x60, '.', ',', ':', '：', ';', '；']

/-- JS regex `\s` character class. -/
def isJsSpace (c : Char) : Bool :=
  decide (c = ' ' ∨ c = '\t' ∨ c = '\n' ∨ c = '\r' ∨ c.toNat = 0xb ∨
    c.toNat = 0xc ∨ c.toNat = 0xa0 ∨ c.toNat = 0x1680 ∨
    (0x2000 ≤ c.toNat ∧ c.toNat ≤ 0x200a) ∨ c.toNat = 0x2028 ∨
    c.toNat = 0x2029 ∨ c.toNat = 0x202f ∨ c.toNat = 0x205f ∨
    c.toNat = 0x3000 ∨ c.toNat = 0xfeff)

/-- `.replace(/[、。…;；]/g, "")`. -/
def stripPunct (l : List Char) : List Char :=
  l.filter (fun c => !(punctChars.contains c))

/-- `.replace(/\s+/g, "")`. -/
def stripWs (l : List Char) : List Char :=
  l.filter (fun c => !(isJsSpace c))

/-- `normalizeJa` (hybrid handler, lines 249–256): NFKC, lowercase,
strip punctuation, strip whitespace — in that order. -/
def normalizeJa (s : List Char) : List Char :=
  stripWs (stripPunct ((nfkcFrag s).map toLowerFrag))

/-- `normalize` (first handler version, lines 69–77): NFKC, lowercase,
strip whitespace, strip punctuation — in that order. -/
def normalize (s : List Char) : List Char :=
  stripPunct (stripWs ((nfkcFrag s).map toLowerFrag))

/- ===== Lexical scorer `simpleScore` (lines 80–93) ===== -/

/-- The head-to-head loop of `simpleScore`: number of initial positions at
which the two strings agree (stops at the first mismatch). -/
def commonPrefixLen : List Char → List Char → Nat
  | a :: as, b :: bs => if a = b then commonPrefixLen as bs + 1 else 0
  | _, _ => 0

/-- `simpleScore(qNorm, userNorm)` (lines 80–93).  Empty strings are falsy,
hence the first guard. -/
def simpleScore (qNorm userNorm : List Char) : ℚ :=
  if qNorm = [] ∨ userNorm = [] then 0
  else if qNorm = userNorm then 1
  else if jsIncludes userNorm qNorm then
    (qNorm.length : ℚ) / ((max userNorm.length 1 : ℕ) : ℚ)
  else if jsIncludes qNorm userNorm then
    (userNorm.length : ℚ) / ((max qNorm.length 1 : ℕ) : ℚ)
  else
    ((commonPrefixLen qNorm userNorm : ℚ) /
      ((max (min qNorm.length userNorm.length) 1 : ℕ) : ℚ)) * (3 / 10)

/-- The lexical score exactly as claim C3 words it: 1 on equality,
`len(shorter)/len(longer)` on containment, otherwise the common-prefix
ratio damped by 3/10. -/
def lexicalScoreClaimed (q u : List Char) : ℚ :=
  if q = u then 1
  else if jsIncludes u q || jsIncludes q u then
    ((min q.length u.length : ℕ) : ℚ) / ((max q.length u.length : ℕ) : ℚ)
  else
    ((commonPrefixLen q u : ℚ) / ((min q.length u.length : ℕ) : ℚ)) * (3 / 10)

/-- The lexical score in the spec's vocabulary, amended where the code
disagrees with C3: 0 when either normalized string is empty, 1 on equality,
`len(shorter)/len(longer)` on containment, otherwise common-prefix ratio
damped by 3/10. -/
def lexicalScoreAmended (q u : List Char) : ℚ :=
  if q = [] ∨ u = [] then 0
  else if q = u then 1
  else if jsIncludes u q || jsIncludes q u then
    ((min q.length u.length : ℕ) : ℚ) / ((max q.length u.length : ℕ) : ℚ)
  else
    ((commonPrefixLen q u : ℚ) / ((min q.length u.length : ℕ) : ℚ)) * (3 / 10)

/- ===== Cosine similarity (lines 277–285) ===== -/

/-- The `dot` accumulator of `cosineSim`'s loop (for `a` no longer than `b`). -/
def dotProd : List ℚ → List ℚ → ℚ
  | a :: as, b :: bs => a * b + dotProd as bs
  | _, _ => 0

/-- The `na` / `nb` accumulators: sum of squares. -/
def sumSq (l : List ℚ) : ℚ := dotProd l l

/-- `cosineSim(a, b)` (lines 277–285).  The loop runs over `a`'s indices;
when `b` is shorter, `b[i]` is `undefined` and every accumulator becomes
`NaN`, hence the `.nan` branch.  Otherwise the result is
`dot / (Math.sqrt(na) * Math.sqrt(nb))` with JS division semantics. -/
def cosineSim (sqrtQ : ℚ → ℚ) (a b : List ℚ) : JsNum :=
  if a.length ≤ b.length then
    jsDiv (dotProd a b) (sqrtQ (sumSq a) * sqrtQ (sumSq b))
  else .nan

/- ===== FAQ index data ===== -/

/-- A corpus row after `mapRowFlexible` (question, answer, tags). -/
structure Raw where
  q : List Char
  a : List Char
  tags : List Char
deriving DecidableEq

/-- An indexed FAQ record (`{ q, a, tags, qNorm, emb }`, line 289). -/
structure Item where
  q : List Char
  a : List Char
  tags : List Char
  qNorm : List Char
  emb : List ℚ
deriving DecidableEq

/-- The module-level cache `cachedFAQ` / `lastFetchMs` (lines 289–290). -/
structure CacheState where
  cachedFAQ : List Item
  lastFetchMs : ℤ
deriving DecidableEq

/-- Outcome of `fetch(url)` + `Papa.parse` + `mapRowFlexible`, held abstract:
either the mapped rows, a non-2xx response with its body text, or a network
failure (the rejected promise's message). -/
inductive FetchResult where
  | ok : List Raw → FetchResult
  | notOk : String → FetchResult
  | netErr : String → FetchResult

/-- `FAQ_CACHE_MS = 10 * 60 * 1000` (line 291). -/
def FAQ_CACHE_MS : ℤ := 10 * 60 * 1000

/-- `SIM_THRESHOLD = 0.65` (line 292). -/
def SIM_THRESHOLD : ℚ := 13 / 20

/-- The keyword threshold `0.6` of the lexical fallback (line 398). -/
def KW_THRESHOLD : ℚ := 3 / 5

/-- The forced minimum `0.8` of the strong-keyword override (lines 393–394). -/
def KW_OVERRIDE : ℚ := 4 / 5

/-- The strong-signal keyword 営業時間 (operating hours). -/
def eigyoJikan : List Char := String.toList "営業時間"

/-- The strong-signal keyword 定休日 (regular closing day). -/
def teikyubi : List Char := String.toList "定休日"

/- ===== Index refresh `loadFAQwithEmbeddings` (lines 318–359) ===== -/

/-- The per-record embedding loop (lines 339–353): each row's embedding is
requested; on success the enriched record is pushed, on failure the record
is logged and skipped.  `embedOf` is the outcome of `getEmbedding` for a
given question text. -/
def buildIndex (embedOf : List Char → Except String (List ℚ)) (rows : List Raw) :
    List Item :=
  rows.filterMap fun r =>
    match embedOf r.q with
    | .ok emb => some ⟨r.q, r.a, r.tags, normalizeJa r.q, emb⟩
    | .error _ => none

/-- The body of `loadFAQwithEmbeddings` past the freshness guard
(lines 322–358): no `FAQ_SHEET_URL` resets the cache to empty; a non-2xx
fetch throws `"FAQ fetch error: " + body` (cache untouched); a network
failure propagates (cache untouched); otherwise rows are filtered for
non-empty question and answer, embedded, and the cache is replaced. -/
def reloadFAQ (st : CacheState) (now : ℤ) (url : Option String)
    (fetchRes : FetchResult) (embedOf : List Char → Except String (List ℚ)) :
    Except String (List Item) × CacheState :=
  match url with
  | none => (.ok [], ⟨[], now⟩)
  | some _ =>
    match fetchRes with
    | .notOk body => (.error ("FAQ fetch error: " ++ body), st)
    | .netErr msg => (.error msg, st)
    | .ok rows =>
      let out := buildIndex embedOf (rows.filter fun r => !r.q.isEmpty && !r.a.isEmpty)
      (.ok out, ⟨out, now⟩)

/-- `loadFAQwithEmbeddings` (lines 318–359) as a state-passing function:
the second component is the cache after the call.  The freshness guard
(line 320) returns the cache only when it is non-empty and younger than
`FAQ_CACHE_MS`. -/
def loadFAQwithEmbeddings (st : CacheState) (now : ℤ) (url : Option String)
    (fetchRes : FetchResult) (embedOf : List Char → Except String (List ℚ)) :
    Except String (List Item) × CacheState :=
  if st.cachedFAQ ≠ [] ∧ now - st.lastFetchMs < FAQ_CACHE_MS then (.ok st.cachedFAQ, st)
  else reloadFAQ st now url fetchRes embedOf

/- ===== Resolver `findFAQ` (lines 362–404) ===== -/

/-- Match method of a returned hit (`debug.via`). -/
inductive Via where
  | emb : Via
  | kw : Via
deriving DecidableEq

/-- A FAQ hit: `{ answer, debug: { via, sim|score, q } }`. -/
structure Hit where
  answer : List Char
  via : Via
  score : JsNum
  q : List Char
deriving DecidableEq

/-- One step of the semantic ranking loop (lines 370–373):
`if (sim > best.sim) best = { sim, item }` with `best.sim` starting at -1. -/
def semStep (sqrtQ : ℚ → ℚ) (userEmb : List ℚ) (b : JsNum × Option Item)
    (item : Item) : JsNum × Option Item :=
  let sim := cosineSim sqrtQ userEmb item.emb
  if jsGt sim b.1 then (sim, some item) else b

/-- The semantic ranking loop over the whole index. -/
def semFold (sqrtQ : ℚ → ℚ) (userEmb : List ℚ) (list : List Item) :
    JsNum × Option Item :=
  list.foldl (semStep sqrtQ userEmb) (JsNum.num (-1), none)

/-- The semantic stage (lines 368–377): returns an embedding hit when the
best item exists and its similarity clears `SIM_THRESHOLD`. -/
def semanticStage (sqrtQ : ℚ → ℚ) (userEmb : List ℚ) (list : List Item) :
    Option Hit :=
  let best := semFold sqrtQ userEmb list
  match best.2 with
  | some it =>
    if jsGe best.1 (JsNum.num SIM_THRESHOLD) then some ⟨it.a, .emb, best.1, it.q⟩
    else none
  | none => none

/-- The spec-side variant of `semStep` in which an undefined (NaN) cosine
score is treated as score 0 before ranking. -/
def treatNanAsZero : JsNum → JsNum
  | .nan => .num 0
  | x => x

/-- Spec-side semantic ranking step: NaN scores replaced by 0. -/
def semStepZero (sqrtQ : ℚ → ℚ) (userEmb : List ℚ) (b : JsNum × Option Item)
    (item : Item) : JsNum × Option Item :=
  let sim := treatNanAsZero (cosineSim sqrtQ userEmb item.emb)
  if jsGt sim b.1 then (sim, some item) else b

/-- Spec-side semantic ranking loop: NaN scores replaced by 0. -/
def semFoldZero (sqrtQ : ℚ → ℚ) (userEmb : List ℚ) (list : List Item) :
    JsNum × Option Item :=
  list.foldl (semStepZero sqrtQ userEmb) (JsNum.num (-1), none)

/-- Spec-side semantic stage: NaN scores replaced by 0. -/
def semanticStageZero (sqrtQ : ℚ → ℚ) (userEmb : List ℚ) (list : List Item) :
    Option Hit :=
  let best := semFoldZero sqrtQ userEmb list
  match best.2 with
  | some it =>
    if jsGe best.1 (JsNum.num SIM_THRESHOLD) then some ⟨it.a, .emb, best.1, it.q⟩
    else none
  | none => none

/-- Invariant relating the code's semantic ranking state to the spec-side
(NaN-as-0) ranking state: either the two states are identical (and the code's
best score is an attainable, comparable value), or the spec-side run has
promoted a NaN-scored record to score 0 while the code's best is still a
nonpositive number — a divergence that can never produce a hit, since the
threshold is positive. -/
def StateRel (bA bB : JsNum × Option Item) : Prop :=
  (bA = bB ∧ bA.1 ≠ .nan ∧ bA.1 ≠ .ninf) ∨
  (∃ a : ℚ, bA.1 = .num a ∧ a ≤ 0 ∧ bB.1 = .num 0 ∧ bB.2 ≠ none)

/-- The per-item score of the keyword fallback loop (lines 387–394):
containment ratio, then the strong-keyword overrides forcing a minimum of
`0.8` when both sides contain 営業時間 resp. 定休日. -/
def kwItemScore (u qn : List Char) : ℚ :=
  let score0 : ℚ :=
    if jsIncludes u qn then (qn.length : ℚ) / ((max u.length 1 : ℕ) : ℚ)
    else if jsIncludes qn u then (u.length : ℚ) / ((max qn.length 1 : ℕ) : ℚ)
    else 0
  let score1 : ℚ :=
    if jsIncludes u eigyoJikan ∧ jsIncludes qn eigyoJikan then max score0 KW_OVERRIDE
    else score0
  if jsIncludes u teikyubi ∧ jsIncludes qn teikyubi then max score1 KW_OVERRIDE
  else score1

/-- One step of the keyword fallback loop (lines 385–397): records whose
normalized question is empty are skipped (`if (!qn) continue`), otherwise
the best strictly greater score wins. -/
def kwStep (u : List Char) (b : ℚ × Option Item) (item : Item) : ℚ × Option Item :=
  if item.qNorm = [] then b
  else
    let s := kwItemScore u item.qNorm
    if b.1 < s then (s, some item) else b

/-- The keyword fallback loop over the whole index, starting from
`{ score: 0, item: null }`. -/
def kwFold (u : List Char) (list : List Item) : ℚ × Option Item :=
  list.foldl (kwStep u) (0, none)

/-- The keyword (lexical) stage (lines 383–401): normalize the query, rank
by `kwItemScore`, and return a keyword hit when the best item exists and
its score reaches `0.6`. -/
def keywordStage (list : List Item) (userText : List Char) : Option Hit :=
  let u := normalizeJa userText
  let best := kwFold u list
  match best.2 with
  | some it =>
    if KW_THRESHOLD ≤ best.1 then some ⟨it.a, .kw, .num best.1, it.q⟩ else none
  | none => none

/-- `findFAQ` (lines 362–404) after the index has been obtained: empty index
short-circuits to no-match; a query-embedding failure (the `catch`) skips
the semantic stage; a semantic miss falls through to the keyword stage.
`embRes` is the outcome of `getEmbedding(userText)`. -/
def findFAQcore (sqrtQ : ℚ → ℚ) (list : List Item) (userText : List Char)
    (embRes : Except String (List ℚ)) : Option Hit :=
  if list = [] then none
  else
    match embRes with
    | .error _ => keywordStage list userText
    | .ok userEmb =>
      match semanticStage sqrtQ userEmb list with
      | some h => some h
      | none => keywordStage list userText

/-- Whether a load outcome is a success (no throw). -/
def exceptIsOk : Except String (List Item) → Bool
  | .ok _ => true
  | .error _ => false

/- ===== Concrete data for counterexamples and witnesses ===== -/

/-- A length-20 string `"a" + 19 × "c"` (C3 damping counterexample). -/
def cexQ : List Char := 'a' :: List.replicate 19 'c'

/-- The string `"ab"` (C3 damping counterexample). -/
def cexU : List Char := ['a', 'b']

/-- A demo indexed record for the 営業時間 FAQ entry. -/
def demoItem : Item :=
  ⟨"営業時間".toList, "9時から18時です".toList, [], normalizeJa ("営業時間".toList), [1]⟩

/-- A non-empty cache generation fetched at time 0. -/
def staleState : CacheState := ⟨[demoItem], 0⟩

/-- A record whose raw question `"。"` is non-empty but normalizes to the
empty string (C8 counterexample). -/
def emptyNormItem : Item :=
  ⟨"。".toList, "句点の答え".toList, [], normalizeJa ("。".toList), [1]⟩

/-- An embedding backend that always fails. -/
def noEmbed : List Char → Except String (List ℚ) := fun _ => Except.error "down"

/-- An embedding backend that fails exactly on the question `"x"`. -/
def pickyEmbed : List Char → Except String (List ℚ) :=
  fun q => if q = "x".toList then Except.error "down" else Except.ok [1]

/-- A corpus row whose embedding call fails under `pickyEmbed`. -/
def failRow : Raw := ⟨"x".toList, "ax".toList, []⟩

/-- A corpus row embedded successfully under `pickyEmbed`. -/
def okRow1 : Raw := ⟨"営業時間".toList, "a1".toList, []⟩

/-- A second corpus row embedded successfully under `pickyEmbed`. -/
def okRow2 : Raw := ⟨"q2".toList, "a2".toList, []⟩

/-- The indexed record `buildIndex` produces from `okRow1` under `pickyEmbed`. -/
def okItem1 : Item := ⟨"営業時間".toList, "a1".toList, [], normalizeJa ("営業時間".toList), [1]⟩

/-- A record with a non-zero embedding, ranked against a zero query vector
in the C2 witness. -/
def zeroQueryTarget : Item := ⟨"q0".toList, "a0".toList, [], normalizeJa ("q0".toList), [5]⟩

/- ===================================================================
   Theorems
   =================================================================== -/

theorem jsIncludes_iff {hay needle : List Char} :
    jsIncludes hay needle = true ↔ needle <:+: hay := by
  simp [jsIncludes]

theorem jsIncludes_refl (l : List Char) : jsIncludes l l = true :=
  jsIncludes_iff.mpr (List.infix_refl l)

theorem jsIncludes_nil (l : List Char) : jsIncludes l [] = true :=
  jsIncludes_iff.mpr List.nil_infix

theorem jsGt_nan_left (x : JsNum) : jsGt .nan x = false := by cases x <;> rfl

theorem jsGe_nan_left (x : JsNum) : jsGe .nan x = false := by cases x <;> rfl

/-- C7: with a zero-record index, the resolver short-circuits to no-match for
every query, every square-root model and every query-embedding outcome. -/
theorem findFAQcore_empty_index (sqrtQ : ℚ → ℚ) (userText : List Char)
    (embRes : Except String (List ℚ)) :
    findFAQcore sqrtQ [] userText embRes = none := by
  simp [findFAQcore]

/-- C4: when the query-embedding call fails, the resolver neither fails nor
matches semantically: its result is exactly the keyword (lexical) stage's
result, and any hit that stage produces is a lexical (`kw`) hit — so the
query terminates in a lexical match or a no-match. -/
theorem findFAQcore_embedding_error (sqrtQ : ℚ → ℚ) (list : List Item)
    (userText : List Char) (e : String) :
    findFAQcore sqrtQ list userText (Except.error e) = keywordStage list userText ∧
    (keywordStage list userText).elim True (fun h => h.via = Via.kw) := by
  constructor
  · by_cases hl : list = []
    · subst hl
      simp [findFAQcore, keywordStage, kwFold]
    · simp [findFAQcore, hl]
  · unfold keywordStage
    dsimp only
    split
    · split
      · simp [Option.elim]
      · simp
    · simp

/-- C6: when the query and a candidate's normalized question both contain the
same strong-signal keyword (営業時間 or 定休日), the keyword stage's score for
that pair is at least the forced minimum `KW_OVERRIDE = 0.8`, whatever the
generic containment scoring yields. -/
theorem kwItemScore_strong_keyword (u qn : List Char)
    (h : (jsIncludes u eigyoJikan = true ∧ jsIncludes qn eigyoJikan = true) ∨
      (jsIncludes u teikyubi = true ∧ jsIncludes qn teikyubi = true)) :
    KW_OVERRIDE ≤ kwItemScore u qn := by
  unfold kwItemScore
  by_cases h3 : jsIncludes u teikyubi = true ∧ jsIncludes qn teikyubi = true
  · rw [if_pos h3]
    exact le_max_right _ _
  · rw [if_neg h3]
    rcases h with ⟨h1, h2⟩ | ⟨h1, h2⟩
    · rw [if_pos ⟨h1, h2⟩]
      exact le_max_right _ _
    · exact absurd ⟨h1, h2⟩ h3

/-- C6 witness: both sides being the keyword itself forces a score ≥ 0.8. -/
theorem kwItemScore_strong_keyword_witness :
    KW_OVERRIDE ≤ kwItemScore eigyoJikan eigyoJikan :=
  kwItemScore_strong_keyword eigyoJikan eigyoJikan
    (Or.inl ⟨jsIncludes_refl eigyoJikan, jsIncludes_refl eigyoJikan⟩)

/-- C9: the freshness guard of `loadFAQwithEmbeddings` short-circuits only
for a non-empty cache: with an empty cached index every call runs the full
reload body regardless of `lastFetchMs`, and the cached-return path requires
the cache to be non-empty and fresh. -/
theorem loadFAQ_empty_cache_always_reloads (st : CacheState) (now : ℤ)
    (url : Option String) (fetchRes : FetchResult)
    (embedOf : List Char → Except String (List ℚ)) :
    (st.cachedFAQ = [] →
      loadFAQwithEmbeddings st now url fetchRes embedOf
        = reloadFAQ st now url fetchRes embedOf) ∧
    (st.cachedFAQ ≠ [] → now - st.lastFetchMs < FAQ_CACHE_MS →
      loadFAQwithEmbeddings st now url fetchRes embedOf
        = (Except.ok st.cachedFAQ, st)) := by
  constructor
  · intro he
    unfold loadFAQwithEmbeddings
    rw [if_neg]
    intro hc
    exact hc.1 he
  · intro hne hfresh
    unfold loadFAQwithEmbeddings
    rw [if_pos ⟨hne, hfresh⟩]

/-- C9 witness: an empty cache written 1 ms ago still reloads (here: the
missing-URL branch resets it), while a fresh non-empty cache is served. -/
theorem loadFAQ_empty_cache_always_reloads_witness :
    loadFAQwithEmbeddings ⟨[], 599999⟩ 600000 none (FetchResult.notOk "500") noEmbed
      = reloadFAQ ⟨[], 599999⟩ 600000 none (FetchResult.notOk "500") noEmbed ∧
    loadFAQwithEmbeddings staleState 300000 none (FetchResult.notOk "500") noEmbed
      = (Except.ok staleState.cachedFAQ, staleState) :=
  ⟨(loadFAQ_empty_cache_always_reloads ⟨[], 599999⟩ 600000 none
      (FetchResult.notOk "500") noEmbed).1 rfl,
   (loadFAQ_empty_cache_always_reloads staleState 300000 none
      (FetchResult.notOk "500") noEmbed).2 (by decide) (by decide)⟩

/-- C1 counterexample: with a stale, non-empty cache and a failing corpus
fetch, `loadFAQwithEmbeddings` does not return the cached generation — it
fails the call with the fetch error (while the cache variable stays intact). -/
theorem loadFAQ_stale_fetch_failure_counterexample :
    staleState.cachedFAQ ≠ [] ∧
    FAQ_CACHE_MS ≤ 600000 - staleState.lastFetchMs ∧
    (loadFAQwithEmbeddings staleState 600000 (some "url") (FetchResult.notOk "500")
        noEmbed).1 ≠ Except.ok staleState.cachedFAQ ∧
    (loadFAQwithEmbeddings staleState 600000 (some "url") (FetchResult.notOk "500")
        noEmbed).1 = Except.error ("FAQ fetch error: " ++ "500") := by
  refine ⟨by decide, by decide, by decide, by decide⟩

/-- C1 (amended): when the cached index is stale and non-empty and the corpus
fetch fails (non-2xx or network failure), the load operation propagates the
error to its caller and leaves the cached generation unchanged — it neither
returns the stale index nor replaces the cache with an empty one. -/
theorem loadFAQ_stale_fetch_failure_keeps_cache (st : CacheState) (now : ℤ)
    (u : String) (body msg : String) (embedOf : List Char → Except String (List ℚ))
    (hne : st.cachedFAQ ≠ []) (hstale : FAQ_CACHE_MS ≤ now - st.lastFetchMs) :
    loadFAQwithEmbeddings st now (some u) (FetchResult.notOk body) embedOf
      = (Except.error ("FAQ fetch error: " ++ body), st) ∧
    loadFAQwithEmbeddings st now (some u) (FetchResult.netErr msg) embedOf
      = (Except.error msg, st) := by
  have hguard : ¬(st.cachedFAQ ≠ [] ∧ now - st.lastFetchMs < FAQ_CACHE_MS) := by
    intro hc
    exact absurd hstale (not_le.mpr hc.2)
  constructor
  · unfold loadFAQwithEmbeddings
    rw [if_neg hguard]
    rfl
  · unfold loadFAQwithEmbeddings
    rw [if_neg hguard]
    rfl

/-- C1 amended witness: concrete stale non-empty cache, failing fetch. -/
theorem loadFAQ_stale_fetch_failure_keeps_cache_witness :
    loadFAQwithEmbeddings staleState 600000 (some "url") (FetchResult.notOk "500")
      noEmbed = (Except.error ("FAQ fetch error: " ++ "500"), staleState) :=
  (loadFAQ_stale_fetch_failure_keeps_cache staleState 600000 "url" "500" "x"
    noEmbed (by decide) (by decide)).1

theorem commonPrefixLen_le (q u : List Char) :
    commonPrefixLen q u ≤ min q.length u.length := by
  induction q generalizing u with
  | nil => simp [commonPrefixLen]
  | cons a as ih =>
    cases u with
    | nil => simp [commonPrefixLen]
    | cons b bs =>
      unfold commonPrefixLen
      by_cases hab : a = b
      · rw [if_pos hab]
        have h := ih bs
        simp only [List.length_cons]
        omega
      · rw [if_neg hab]
        exact Nat.zero_le _

theorem prefix_of_commonPrefixLen_eq {q u : List Char}
    (h : commonPrefixLen q u = min q.length u.length) : q <+: u ∨ u <+: q := by
  induction q generalizing u with
  | nil => exact Or.inl (List.nil_prefix)
  | cons a as ih =>
    cases u with
    | nil => exact Or.inr (List.nil_prefix)
    | cons b bs =>
      unfold commonPrefixLen at h
      by_cases hab : a = b
      · rw [if_pos hab] at h
        simp only [List.length_cons] at h
        have h' : commonPrefixLen as bs = min as.length bs.length := by omega
        rcases ih h' with hp | hp
        · exact Or.inl (by rw [hab]; exact List.cons_prefix_cons.mpr ⟨rfl, hp⟩)
        · exact Or.inr (by rw [hab]; exact List.cons_prefix_cons.mpr ⟨rfl, hp⟩)
      · rw [if_neg hab] at h
        simp only [List.length_cons] at h
        omega

/-- C3 counterexample: the claimed lexical-score formula fails on the code in
two ways.  Two empty normalized strings are equal but score 0, not 1; and a
prefix-branch score (here `(1/2)·0.3 = 0.15` for `"a"+19×"c"` vs `"ab"`) is
not strictly below the containment ratio `len(shorter)/len(longer) = 0.1` of
the same pair. -/
theorem simpleScore_claim_counterexample :
    simpleScore [] [] ≠ lexicalScoreClaimed [] [] ∧
    jsIncludes cexU cexQ = false ∧ jsIncludes cexQ cexU = false ∧
    ¬(simpleScore cexQ cexU
        < ((min cexQ.length cexU.length : ℕ) : ℚ) /
          ((max cexQ.length cexU.length : ℕ) : ℚ)) := by
  refine ⟨?_, by decide, by decide, ?_⟩
  · norm_num [simpleScore, lexicalScoreClaimed]
  · have h0 : ¬(cexQ = [] ∨ cexU = []) := by decide
    have h1 : cexQ ≠ cexU := by decide
    have h2 : jsIncludes cexU cexQ = false := by decide
    have h3 : jsIncludes cexQ cexU = false := by decide
    have e1 : commonPrefixLen cexQ cexU = 1 := by decide
    have e2 : cexQ.length = 20 := by decide
    have e3 : cexU.length = 2 := by decide
    unfold simpleScore
    rw [if_neg h0, if_neg h1, if_neg (by simp [h2]), if_neg (by simp [h3]),
      e1, e2, e3]
    norm_num

/-- C3 (amended): the code's lexical score is 0 when either normalized string
is empty; 1 on equality; `len(shorter)/len(longer)` when one contains the
other; otherwise the longest-common-prefix length over the shorter length,
damped by the fixed factor 3/10 — and in that last case the score is always
strictly below the damping factor 3/10 (though not necessarily below the
containment ratio of the same pair). -/
theorem simpleScore_characterization (q u : List Char) :
    simpleScore q u = lexicalScoreAmended q u ∧
    (jsIncludes u q = false → jsIncludes q u = false → simpleScore q u < 3 / 10) := by
  constructor
  · unfold simpleScore lexicalScoreAmended
    by_cases h0 : q = [] ∨ u = []
    · rw [if_pos h0, if_pos h0]
    · have hqne : q ≠ [] := fun h => h0 (Or.inl h)
      have hune : u ≠ [] := fun h => h0 (Or.inr h)
      rw [if_neg h0, if_neg h0]
      by_cases h1 : q = u
      · rw [if_pos h1, if_pos h1]
      · rw [if_neg h1, if_neg h1]
        by_cases h2 : jsIncludes u q = true
        · rw [if_pos h2, if_pos (show (jsIncludes u q || jsIncludes q u) = true by
            simp [h2])]
          have hle : q.length ≤ u.length := (jsIncludes_iff.mp h2).length_le
          rw [min_eq_left hle, max_eq_right hle,
            max_eq_left (List.length_pos.mpr hune)]
        · rw [if_neg h2]
          by_cases h3 : jsIncludes q u = true
          · rw [if_pos h3, if_pos (show (jsIncludes u q || jsIncludes q u) = true by
              simp [h3])]
            have hle : u.length ≤ q.length := (jsIncludes_iff.mp h3).length_le
            rw [min_eq_right hle, max_eq_left hle,
              max_eq_left (List.length_pos.mpr hqne)]
          · rw [if_neg h3, if_neg (show ¬((jsIncludes u q || jsIncludes q u) = true) by
              simp [Bool.not_eq_true] at h2 h3
              simp [h2, h3])]
            have hmin : 1 ≤ min q.length u.length :=
              le_min (List.length_pos.mpr hqne) (List.length_pos.mpr hune)
            rw [max_eq_left hmin]
  · intro hq hu
    have hqne : q ≠ [] := by
      intro h
      rw [h, jsIncludes_nil] at hq
      cases hq
    have hune : u ≠ [] := by
      intro h
      rw [h, jsIncludes_nil] at hu
      cases hu
    have hne : q ≠ u := by
      intro h
      rw [h, jsIncludes_refl] at hq
      cases hq
    have hmin : 1 ≤ min q.length u.length :=
      le_min (List.length_pos.mpr hqne) (List.length_pos.mpr hune)
    have hlt : commonPrefixLen q u < min q.length u.length := by
      rcases Nat.lt_or_ge (commonPrefixLen q u) (min q.length u.length) with h | h
      · exact h
      · exfalso
        have heq : commonPrefixLen q u = min q.length u.length :=
          le_antisymm (commonPrefixLen_le q u) h
        rcases prefix_of_commonPrefixLen_eq heq with h' | h'
        · rw [jsIncludes_iff.mpr h'.isInfix] at hq
          cases hq
        · rw [jsIncludes_iff.mpr h'.isInfix] at hu
          cases hu
    unfold simpleScore
    rw [if_neg (show ¬(q = [] ∨ u = []) from fun h => h.elim hqne hune), if_neg hne,
      if_neg (by simp [hq]), if_neg (by simp [hu]), max_eq_left hmin]
    have hpos : (0 : ℚ) < ((min q.length u.length : ℕ) : ℚ) := by
      exact_mod_cast Nat.lt_of_lt_of_le Nat.zero_lt_one hmin
    have hdiv : ((commonPrefixLen q u : ℕ) : ℚ) / ((min q.length u.length : ℕ) : ℚ) < 1 :=
      (div_lt_one hpos).mpr (by exact_mod_cast hlt)
    calc ((commonPrefixLen q u : ℕ) : ℚ) / ((min q.length u.length : ℕ) : ℚ) * (3 / 10)
        < 1 * (3 / 10) := by
          exact mul_lt_mul_of_pos_right hdiv (by norm_num)
      _ = 3 / 10 := one_mul _

/-- C3 amended witness: the prefix branch at the concrete pair really is
below the damping factor. -/
theorem simpleScore_characterization_witness : simpleScore cexQ cexU < 3 / 10 :=
  (simpleScore_characterization cexQ cexU).2 (by decide) (by decide)

/-- C5: a record whose embedding call fails is dropped from the generation
being built (wherever it sits in the row list), every record that is stored
carries exactly the embedding the backend returned for its question (never a
null/absent vector), and a refresh whose fetch succeeded never fails as a
whole, whatever the per-record embedding outcomes. -/
theorem buildIndex_embedding_failure (embedOf : List Char → Except String (List ℚ))
    (rows₁ rows₂ : List Raw) (r : Raw) (e : String)
    (hr : embedOf r.q = Except.error e) :
    buildIndex embedOf (rows₁ ++ r :: rows₂) = buildIndex embedOf (rows₁ ++ rows₂) ∧
    (∀ it ∈ buildIndex embedOf (rows₁ ++ r :: rows₂), embedOf it.q = Except.ok it.emb) ∧
    (∀ (st : CacheState) (now : ℤ) (url : Option String) (rows : List Raw),
      exceptIsOk (loadFAQwithEmbeddings st now url (FetchResult.ok rows) embedOf).1
        = true) := by
  refine ⟨?_, ?_, ?_⟩
  · simp [buildIndex, List.filterMap_append, List.filterMap_cons, hr]
  · intro it hit
    unfold buildIndex at hit
    rw [List.mem_filterMap] at hit
    obtain ⟨r', _, hsome⟩ := hit
    cases h' : embedOf r'.q with
    | error e' =>
      rw [h'] at hsome
      cases hsome
    | ok emb =>
      rw [h'] at hsome
      obtain rfl := (Option.some_inj.mp hsome)
      exact h'
  · intro st now url rows
    unfold loadFAQwithEmbeddings
    split
    · rfl
    · unfold reloadFAQ
      cases url with
      | none => rfl
      | some u => rfl

/-- C5 witness: under `pickyEmbed` the failing row `"x"` is dropped, the
other rows survive, and the stored record keeps its returned vector. -/
theorem buildIndex_embedding_failure_witness :
    buildIndex pickyEmbed [okRow1, failRow, okRow2] = buildIndex pickyEmbed [okRow1, okRow2] ∧
    pickyEmbed okItem1.q = Except.ok okItem1.emb ∧
    exceptIsOk (loadFAQwithEmbeddings ⟨[], 0⟩ 0 (some "url")
      (FetchResult.ok [okRow1, failRow, okRow2]) pickyEmbed).1 = true :=
  ⟨(buildIndex_embedding_failure pickyEmbed [okRow1] [okRow2] failRow "down"
      (by decide)).1,
   (buildIndex_embedding_failure pickyEmbed [okRow1] [okRow2] failRow "down"
      (by decide)).2.1 okItem1 (by decide),
   (buildIndex_embedding_failure pickyEmbed [okRow1] [okRow2] failRow "down"
      (by decide)).2.2 ⟨[], 0⟩ 0 (some "url") [okRow1, failRow, okRow2]⟩

theorem kwStep_fst_le (u : List Char) (b : ℚ × Option Item) (item : Item) :
    b.1 ≤ (kwStep u b item).1 := by
  unfold kwStep
  dsimp only
  split
  · exact le_refl _
  · split
    · next hlt => exact le_of_lt hlt
    · exact le_refl _

theorem kwFoldl_fst_le (u : List Char) (l : List Item) (b : ℚ × Option Item) :
    b.1 ≤ (l.foldl (kwStep u) b).1 := by
  induction l generalizing b with
  | nil => exact le_refl _
  | cons a l ih => exact le_trans (kwStep_fst_le u b a) (ih (kwStep u b a))

theorem kwFoldl_fst_ge (u : List Char) (l : List Item) (b : ℚ × Option Item)
    (it : Item) (hmem : it ∈ l) (hqn : it.qNorm ≠ []) :
    kwItemScore u it.qNorm ≤ (l.foldl (kwStep u) b).1 := by
  induction l generalizing b with
  | nil => cases hmem
  | cons a l ih =>
    rcases List.mem_cons.mp hmem with rfl | hmem'
    · refine le_trans ?_ (kwFoldl_fst_le u l (kwStep u b it))
      unfold kwStep
      dsimp only
      rw [if_neg hqn]
      split
      · exact le_refl _
      · next hnlt => exact le_of_not_lt hnlt
    · exact ih (kwStep u b a) hmem'

theorem kwFoldl_none_fst (u : List Char) (l : List Item) :
    ∀ b : ℚ × Option Item, (b.2 = none → b.1 = 0) →
      (l.foldl (kwStep u) b).2 = none → (l.foldl (kwStep u) b).1 = 0 := by
  induction l with
  | nil =>
    intro b hb h
    exact hb h
  | cons a l ih =>
    intro b hb h
    refine ih (kwStep u b a) ?_ h
    intro h2
    unfold kwStep at h2 ⊢
    dsimp only at h2 ⊢
    by_cases hq : a.qNorm = []
    · rw [if_pos hq] at h2 ⊢
      exact hb h2
    · rw [if_neg hq] at h2 ⊢
      by_cases hlt : b.1 < kwItemScore u a.qNorm
      · rw [if_pos hlt] at h2
        cases h2
      · rw [if_neg hlt] at h2 ⊢
        exact hb h2

theorem kwItemScore_self (u : List Char) (hu : u ≠ []) : 1 ≤ kwItemScore u u := by
  have key : ∀ (c : Prop) [Decidable c] (x : ℚ),
      1 ≤ x → 1 ≤ (if c then max x KW_OVERRIDE else x) := by
    intro c inst x hx
    split
    · exact le_trans hx (le_max_left _ _)
    · exact hx
  unfold kwItemScore
  dsimp only
  rw [if_pos (jsIncludes_refl u)]
  have hlen : ((max u.length 1 : ℕ) : ℚ) = (u.length : ℚ) := by
    rw [max_eq_left (List.length_pos.mpr hu)]
  have hne0 : (u.length : ℚ) ≠ 0 :=
    Nat.cast_ne_zero.mpr (fun h => hu (List.length_eq_zero.mp h))
  rw [hlen, div_self hne0]
  exact key _ _ (key _ _ le_rfl)

theorem keywordStage_exact (list : List Item) (userText : List Char) (it : Item)
    (hmem : it ∈ list) (hq : it.qNorm = normalizeJa userText)
    (hne : normalizeJa userText ≠ []) : keywordStage list userText ≠ none := by
  have hqn : it.qNorm ≠ [] := by
    rw [hq]
    exact hne
  have hscore : (1 : ℚ) ≤ kwItemScore (normalizeJa userText) it.qNorm := by
    rw [hq]
    exact kwItemScore_self _ hne
  have hbest : (1 : ℚ) ≤ (kwFold (normalizeJa userText) list).1 := by
    unfold kwFold
    exact le_trans hscore (kwFoldl_fst_ge _ list (0, none) it hmem hqn)
  have hsnd : (kwFold (normalizeJa userText) list).2 ≠ none := by
    intro hnone
    have h0 : (kwFold (normalizeJa userText) list).1 = 0 := by
      unfold kwFold at hnone ⊢
      exact kwFoldl_none_fst _ list (0, none) (fun _ => rfl) hnone
    rw [h0] at hbest
    norm_num at hbest
  unfold keywordStage
  dsimp only
  split
  · rw [if_pos (le_trans (by norm_num [KW_THRESHOLD]) hbest)]
    simp
  · next heq => exact absurd heq hsnd

/-- C8 counterexample: a record whose raw question `"。"` is non-empty but
normalizes to the empty string sits in a non-empty index; the query `"、"`
normalizes to that same (empty) string, both thresholds are ≤ 1, yet the
resolver returns no-match (the keyword loop skips empty normalized
questions, and the embedding call failed). -/
theorem findFAQcore_exact_match_counterexample :
    normalizeJa ("、".toList) = emptyNormItem.qNorm ∧
    emptyNormItem ∈ [emptyNormItem] ∧
    SIM_THRESHOLD ≤ 1 ∧ KW_THRESHOLD ≤ 1 ∧
    findFAQcore id [emptyNormItem] ("、".toList) (Except.error "down") = none := by
  refine ⟨by decide, by decide, ?_, ?_, by decide⟩
  · norm_num [SIM_THRESHOLD]
  · norm_num [KW_THRESHOLD]

/-- C8 (amended): if the current index is non-empty and some record's
normalized question equals the normalized query, and the normalized query is
non-empty, then the resolver never returns no-match (the thresholds 0.65 and
0.6 are both ≤ 1; the matching record scores 1 at the keyword stage if the
semantic stage did not already hit). -/
theorem findFAQcore_exact_match_hits (sqrtQ : ℚ → ℚ) (list : List Item)
    (userText : List Char) (embRes : Except String (List ℚ)) (it : Item)
    (hmem : it ∈ list) (hq : it.qNorm = normalizeJa userText)
    (hne : normalizeJa userText ≠ []) :
    findFAQcore sqrtQ list userText embRes ≠ none := by
  have hkw := keywordStage_exact list userText it hmem hq hne
  have hlist : list ≠ [] := List.ne_nil_of_mem hmem
  unfold findFAQcore
  rw [if_neg hlist]
  cases embRes with
  | error e => exact hkw
  | ok userEmb =>
    cases hsem : semanticStage sqrtQ userEmb list with
    | some h => simp [hsem]
    | none =>
      simp only [hsem]
      exact hkw

/-- C8 amended witness: exact normalized equality on a one-record index with
a failing embedding call still produces a match. -/
theorem findFAQcore_exact_match_hits_witness :
    findFAQcore id [demoItem] ("営業時間".toList) (Except.error "down") ≠ none :=
  findFAQcore_exact_match_hits id [demoItem] ("営業時間".toList)
    (Except.error "down") demoItem (by simp) rfl (by decide)

theorem jsGt_ninf_left (x : JsNum) : jsGt .ninf x = false := by
  cases x <;> rfl

theorem sumSq_cons (x : ℚ) (xs : List ℚ) : sumSq (x :: xs) = x * x + sumSq xs := rfl

theorem sumSq_nonneg (l : List ℚ) : 0 ≤ sumSq l := by
  induction l with
  | nil => exact le_refl _
  | cons x xs ih =>
    rw [sumSq_cons]
    exact add_nonneg (mul_self_nonneg x) ih

theorem dotProd_zero_left (l b : List ℚ) (h : sumSq l = 0) : dotProd l b = 0 := by
  induction l generalizing b with
  | nil => rfl
  | cons x xs ih =>
    have hx : x * x = 0 ∧ sumSq xs = 0 := by
      rw [sumSq_cons] at h
      constructor
      · nlinarith [sumSq_nonneg xs, mul_self_nonneg x]
      · nlinarith [sumSq_nonneg xs, mul_self_nonneg x]
    cases b with
    | nil => rfl
    | cons y ys =>
      unfold dotProd
      rw [mul_self_eq_zero.mp hx.1, ih ys hx.2, zero_mul, zero_add]

theorem stateRel_step (sqrtQ : ℚ → ℚ) (userEmb : List ℚ) (item : Item)
    {bA bB : JsNum × Option Item} (h : StateRel bA bB) :
    StateRel (semStep sqrtQ userEmb bA item) (semStepZero sqrtQ userEmb bB item) := by
  unfold semStep semStepZero
  dsimp only
  cases hs : cosineSim sqrtQ userEmb item.emb with
  | nan =>
    simp only [treatNanAsZero, jsGt_nan_left, Bool.false_eq_true, if_false]
    rcases h with ⟨rfl, hnan, hninf⟩ | ⟨a, ha, hle, hb, hbs⟩
    · cases hA : bA.1 with
      | nan => exact absurd hA hnan
      | ninf => exact absurd hA hninf
      | inf =>
        simp only [show jsGt (JsNum.num 0) JsNum.inf = false from rfl,
          Bool.false_eq_true, if_false]
        exact Or.inl ⟨rfl, hnan, hninf⟩
      | num v =>
        by_cases hv : v < 0
        · rw [show jsGt (JsNum.num 0) (JsNum.num v) = true by simp [jsGt, hv], if_pos rfl]
          exact Or.inr ⟨v, hA, le_of_lt hv, rfl, by simp⟩
        · rw [show jsGt (JsNum.num 0) (JsNum.num v) = false by simp [jsGt, hv]]
          simp only [Bool.false_eq_true, if_false]
          exact Or.inl ⟨rfl, hnan, hninf⟩
    · rw [hb]
      simp only [show jsGt (JsNum.num 0) (JsNum.num 0) = false by simp [jsGt],
        Bool.false_eq_true, if_false]
      exact Or.inr ⟨a, ha, hle, hb, hbs⟩
  | inf =>
    simp only [treatNanAsZero]
    rcases h with ⟨rfl, hnan, hninf⟩ | ⟨a, ha, hle, hb, hbs⟩
    · split
      · exact Or.inl ⟨rfl, by simp, by simp⟩
      · exact Or.inl ⟨rfl, hnan, hninf⟩
    · rw [ha, hb]
      simp only [show jsGt JsNum.inf (JsNum.num a) = true from rfl,
        show jsGt JsNum.inf (JsNum.num 0) = true from rfl, if_pos rfl]
      exact Or.inl ⟨rfl, by simp, by simp⟩
  | ninf =>
    simp only [treatNanAsZero, jsGt_ninf_left, Bool.false_eq_true, if_false]
    rcases h with ⟨rfl, hnan, hninf⟩ | ⟨a, ha, hle, hb, hbs⟩
    · exact Or.inl ⟨rfl, hnan, hninf⟩
    · exact Or.inr ⟨a, ha, hle, hb, hbs⟩
  | num c =>
    simp only [treatNanAsZero]
    rcases h with ⟨rfl, hnan, hninf⟩ | ⟨a, ha, hle, hb, hbs⟩
    · split
      · exact Or.inl ⟨rfl, by simp, by simp⟩
      · exact Or.inl ⟨rfl, hnan, hninf⟩
    · rw [ha, hb]
      by_cases hc : 0 < c
      · rw [show jsGt (JsNum.num c) (JsNum.num a) = true by
            simp [jsGt]; linarith,
          show jsGt (JsNum.num c) (JsNum.num 0) = true by simp [jsGt, hc],
          if_pos rfl, if_pos rfl]
        exact Or.inl ⟨rfl, by simp, by simp⟩
      · rw [show jsGt (JsNum.num c) (JsNum.num 0) = false by simp [jsGt, hc]]
        simp only [Bool.false_eq_true, if_false]
        by_cases hac : a < c
        · rw [show jsGt (JsNum.num c) (JsNum.num a) = true by simp [jsGt, hac],
            if_pos rfl]
          exact Or.inr ⟨c, rfl, le_of_not_lt hc, hb, hbs⟩
        · rw [show jsGt (JsNum.num c) (JsNum.num a) = false by simp [jsGt, hac]]
          simp only [Bool.false_eq_true, if_false]
          exact Or.inr ⟨a, ha, hle, hb, hbs⟩

theorem stateRel_foldl (sqrtQ : ℚ → ℚ) (userEmb : List ℚ) (l : List Item)
    {bA bB : JsNum × Option Item} (h : StateRel bA bB) :
    StateRel (l.foldl (semStep sqrtQ userEmb) bA) (l.foldl (semStepZero sqrtQ userEmb) bB) := by
  induction l generalizing bA bB with
  | nil => exact h
  | cons a l ih => exact ih (stateRel_step sqrtQ userEmb a h)

theorem semFold_rel (sqrtQ : ℚ → ℚ) (userEmb : List ℚ) (list : List Item) :
    StateRel (semFold sqrtQ userEmb list) (semFoldZero sqrtQ userEmb list) :=
  stateRel_foldl sqrtQ userEmb list (Or.inl ⟨rfl, by simp, by simp⟩)

/-- C2: NaN cosine scores never influence the resolver.  The semantic stage
returns exactly what the spec-side variant (NaN treated as score 0) returns;
any hit it produces carries a non-NaN score that cleared the threshold; and
a zero query vector (an undefined cosine) indeed yields NaN against every
record of at least its dimension. -/
theorem semanticStage_nan_safe (sqrtQ : ℚ → ℚ) (hs : SqrtSpec sqrtQ)
    (userEmb : List ℚ) (list : List Item) :
    semanticStage sqrtQ userEmb list = semanticStageZero sqrtQ userEmb list ∧
    (∀ h, semanticStage sqrtQ userEmb list = some h →
      h.score ≠ JsNum.nan ∧ jsGe h.score (JsNum.num SIM_THRESHOLD) = true) ∧
    (sumSq userEmb = 0 → ∀ b : List ℚ, userEmb.length ≤ b.length →
      cosineSim sqrtQ userEmb b = JsNum.nan) := by
  refine ⟨?_, ?_, ?_⟩
  · rcases semFold_rel sqrtQ userEmb list with ⟨heq, _, _⟩ | ⟨a, ha, hle, hb, hbs⟩
    · unfold semanticStage semanticStageZero
      dsimp only
      rw [heq]
    · have hga : jsGe (JsNum.num a) (JsNum.num SIM_THRESHOLD) = false := by
        simp only [jsGe, decide_eq_false_iff_not, SIM_THRESHOLD]
        intro hcon
        linarith
      have hgb : jsGe (JsNum.num 0) (JsNum.num SIM_THRESHOLD) = false := by
        simp only [jsGe, decide_eq_false_iff_not, SIM_THRESHOLD]
        norm_num
      obtain ⟨itB, hitB⟩ := Option.ne_none_iff_exists'.mp hbs
      unfold semanticStage semanticStageZero
      dsimp only
      rw [hitB, hb, hgb]
      cases hA2 : (semFold sqrtQ userEmb list).2 with
      | none => simp
      | some itA =>
        rw [ha, hga]
        simp
  · intro h hsome
    unfold semanticStage at hsome
    dsimp only at hsome
    cases h2 : (semFold sqrtQ userEmb list).2 with
    | none =>
      rw [h2] at hsome
      cases hsome
    | some it =>
      rw [h2] at hsome
      dsimp only at hsome
      by_cases hge : jsGe (semFold sqrtQ userEmb list).1 (JsNum.num SIM_THRESHOLD) = true
      · rw [if_pos hge] at hsome
        obtain rfl := Option.some_inj.mp hsome.symm
        refine ⟨?_, hge⟩
        intro hnan
        dsimp only at hnan
        rw [hnan, jsGe_nan_left] at hge
        cases hge
      · rw [if_neg hge] at hsome
        cases hsome
  · intro h0 b hlen
    unfold cosineSim
    rw [if_pos hlen, dotProd_zero_left _ _ h0, h0, (hs 0 le_rfl).mpr rfl, zero_mul]
    simp [jsDiv]

/-- C2 witness: with the identity square-root model (which satisfies
`SqrtSpec`), a zero query vector scores NaN against a non-zero record and the
semantic stage agrees with its NaN-as-0 variant. -/
theorem semanticStage_nan_safe_witness :
    semanticStage id [(0 : ℚ)] [zeroQueryTarget]
      = semanticStageZero id [(0 : ℚ)] [zeroQueryTarget] ∧
    cosineSim id [(0 : ℚ)] zeroQueryTarget.emb = JsNum.nan :=
  ⟨(semanticStage_nan_safe id (fun _ _ => Iff.rfl) [0] [zeroQueryTarget]).1,
   (semanticStage_nan_safe id (fun _ _ => Iff.rfl) [0] [zeroQueryTarget]).2.2
     (by norm_num [sumSq, dotProd]) zeroQueryTarget.emb (by decide)⟩

theorem char_toNat_ofNat {n : ℕ} (h : n < 0xD800) : (Char.ofNat n).toNat = n := by
  have hv : n.isValidChar := Or.inl h
  simp [Char.ofNat, hv, Char.ofNatAux, Char.toNat]
  rfl

theorem toLowerFrag_idem (c : Char) : toLowerFrag (toLowerFrag c) = toLowerFrag c := by
  unfold toLowerFrag
  by_cases h : 65 ≤ c.toNat ∧ c.toNat ≤ 90
  · rw [if_pos h]
    have ht : (Char.ofNat (c.toNat + 32)).toNat = c.toNat + 32 :=
      char_toNat_ofNat (by omega)
    rw [if_neg (by rw [ht]; omega)]
  · rw [if_neg h, if_neg h]

theorem normalizeJa_chars_lower {s : List Char} {c : Char} (hc : c ∈ normalizeJa s) :
    toLowerFrag c = c := by
  unfold normalizeJa stripWs stripPunct at hc
  have h1 := (List.mem_filter.mp hc).1
  have h2 := (List.mem_filter.mp h1).1
  obtain ⟨d, _, rfl⟩ := List.mem_map.mp h2
  exact toLowerFrag_idem d

theorem normalizeJa_chars_not_punct {s : List Char} {c : Char} (hc : c ∈ normalizeJa s) :
    punctChars.contains c = false := by
  unfold normalizeJa stripWs stripPunct at hc
  have h1 := (List.mem_filter.mp hc).1
  have h2 := (List.mem_filter.mp h1).2
  simpa using h2

theorem normalizeJa_chars_not_space {s : List Char} {c : Char} (hc : c ∈ normalizeJa s) :
    isJsSpace c = false := by
  unfold normalizeJa stripWs at hc
  have h2 := (List.mem_filter.mp hc).2
  simpa using h2

theorem normalize_chars_lower {s : List Char} {c : Char} (hc : c ∈ normalize s) :
    toLowerFrag c = c := by
  unfold normalize stripWs stripPunct at hc
  have h1 := (List.mem_filter.mp hc).1
  have h2 := (List.mem_filter.mp h1).1
  obtain ⟨d, _, rfl⟩ := List.mem_map.mp h2
  exact toLowerFrag_idem d

theorem normalize_chars_not_punct {s : List Char} {c : Char} (hc : c ∈ normalize s) :
    punctChars.contains c = false := by
  unfold normalize stripPunct at hc
  have h2 := (List.mem_filter.mp hc).2
  simpa using h2

theorem normalize_chars_not_space {s : List Char} {c : Char} (hc : c ∈ normalize s) :
    isJsSpace c = false := by
  unfold normalize stripWs stripPunct at hc
  have h1 := (List.mem_filter.mp hc).1
  have h2 := (List.mem_filter.mp h1).2
  simpa using h2

theorem normalizeJa_fixed {t : List Char} (hn : nfkcFrag t = t)
    (hl : ∀ c ∈ t, toLowerFrag c = c)
    (hp : ∀ c ∈ t, punctChars.contains c = false)
    (hw : ∀ c ∈ t, isJsSpace c = false) : normalizeJa t = t := by
  unfold normalizeJa stripWs stripPunct
  rw [hn, List.map_congr_left hl, List.map_id']
  have hpt : List.filter (fun c => !punctChars.contains c) t = t :=
    List.filter_eq_self.mpr (fun a ha => by rw [hp a ha]; rfl)
  have hwt : List.filter (fun c => !isJsSpace c) t = t :=
    List.filter_eq_self.mpr (fun a ha => by rw [hw a ha]; rfl)
  rw [hpt, hwt]

theorem normalize_fixed {t : List Char} (hn : nfkcFrag t = t)
    (hl : ∀ c ∈ t, toLowerFrag c = c)
    (hp : ∀ c ∈ t, punctChars.contains c = false)
    (hw : ∀ c ∈ t, isJsSpace c = false) : normalize t = t := by
  unfold normalize stripWs stripPunct
  rw [hn, List.map_congr_left hl, List.map_id']
  have hwt : List.filter (fun c => !isJsSpace c) t = t :=
    List.filter_eq_self.mpr (fun a ha => by rw [hw a ha]; rfl)
  have hpt : List.filter (fun c => !punctChars.contains c) t = t :=
    List.filter_eq_self.mpr (fun a ha => by rw [hp a ha]; rfl)
  rw [hwt, hpt]

/-- C10 counterexample: the normalizer is not idempotent.  For the string
`"a" U+3001 U+0301` (an `a`, an ideographic comma, a combining acute accent),
the first pass strips the comma, leaving `a` followed by a combining acute —
a string that is no longer NFKC-normal; the second pass's NFKC composes it to
`á` (U+00E1), so the two passes disagree. -/
theorem normalizeJa_idem_counterexample :
    normalizeJa (normalizeJa ['a', '、', acuteChar]) ≠ normalizeJa ['a', '、', acuteChar] := by
  decide

/-- C10 (amended): the normalizer is idempotent on every string whose
normalized form is still NFKC-normal (in particular all corpus strings
without combining marks); in general punctuation stripping can expose a new
canonical composition, and a second pass then differs.  Both normalizer
versions (`normalizeJa` and `normalize`) satisfy this conditional
idempotence. -/
theorem normalizeJa_conditional_idempotent (s : List Char)
    (h1 : nfkcFrag (normalizeJa s) = normalizeJa s)
    (h2 : nfkcFrag (normalize s) = normalize s) :
    normalizeJa (normalizeJa s) = normalizeJa s ∧
    normalize (normalize s) = normalize s :=
  ⟨normalizeJa_fixed h1 (fun _ hc => normalizeJa_chars_lower hc)
      (fun _ hc => normalizeJa_chars_not_punct hc)
      (fun _ hc => normalizeJa_chars_not_space hc),
   normalize_fixed h2 (fun _ hc => normalize_chars_lower hc)
      (fun _ hc => normalize_chars_not_punct hc)
      (fun _ hc => normalize_chars_not_space hc)⟩

/-- C10 amended witness: a concrete mixed-script string whose normalized form
is NFKC-normal normalizes idempotently. -/
theorem normalizeJa_conditional_idempotent_witness :
    normalizeJa (normalizeJa ("ABC 営業時間。".toList)) = normalizeJa ("ABC 営業時間。".toList) ∧
    normalize (normalize ("ABC 営業時間。".toList)) = normalize ("ABC 営業時間。".toList) :=
  normalizeJa_conditional_idempotent ("ABC 営業時間。".toList) (by decide) (by decide)

end LineBot
